import Mathlib

/-!
Verification development for the statsd-go aggregation daemon
(src/main.go and its near-duplicate src/unnamed/part_000).

The embedding below translates, from the source:
  * the sample decoder `handleMessage` (main.go lines 248-281): the
    sanitizing character class, the packet pattern
    `([a-zA-Z0-9_\.]+):(\-?[0-9\.]+)\|(c|ms|g)(\|@([0-9\.]+))?` applied as a
    left-to-right non-overlapping scan, the ms value fallback and the default
    sample rate;
  * the store mutation in `monitor` (main.go lines 61-93): timers append a
    parsed float, gauges add/subtract/replace integers, counters accumulate
    `int(float32(value) * (1 / sampling))`;
  * the flush `submit` (main.go lines 170-239): the per-counter rate, the
    gauge pass-through, the timer statistics with the integer-division
    threshold index, the numStats total, and the per-type reset policy.

Numeric model: Go float64/float32 arithmetic is modelled over ℚ, exactly.
The concrete values exercised by the theorems below (integers, 1/10, 1/3)
make the float computations land on the same results as the exact rational
ones, so no rounding is modelled; non-finite float values, which the source
can produce by dividing by a zero sample rate, are modelled by the `FExt`
type below.  Go map iteration order is randomized; the model uses
insertion-ordered association lists, and the theorems below only state
order-insensitive facts (membership, per-key values, counts).
-/

namespace StatsdGo

/-! ## Character classes, from the two regexps in handleMessage -/

/-- Characters kept by `sanitizeRegexp`: the class `[a-zA-Z0-9\-_\.:\|@]`
(main.go line 251; every other character is deleted). -/
def keepChar (c : Char) : Bool :=
  ('a' ≤ c && c ≤ 'z') || ('A' ≤ c && c ≤ 'Z') || ('0' ≤ c && c ≤ '9') ||
    c == '-' || c == '_' || c == '.' || c == ':' || c == '|' || c == '@'

/-- Bucket-name characters: the class `[a-zA-Z0-9_\.]` of `packetRegexp`. -/
def isNameChar (c : Char) : Bool :=
  ('a' ≤ c && c ≤ 'z') || ('A' ≤ c && c ≤ 'Z') || ('0' ≤ c && c ≤ '9') ||
    c == '_' || c == '.'

/-- Value and sample-rate characters: the class `[0-9\.]` of `packetRegexp`. -/
def isValChar (c : Char) : Bool :=
  ('0' ≤ c && c ≤ '9') || c == '.'

/-- `sanitizeRegexp.ReplaceAllString(buf, "")`: drop every character not in
the kept class (main.go line 253). -/
def sanitizeL (l : List Char) : List Char := l.filter keepChar

/-! ## The scanner implementing packetRegexp

Go regexps use leftmost, greedy matching.  For this particular pattern the
greedy submatches are forced: the name run must be maximal (it is followed by
a colon, which is not a name character), the value run must be maximal (it is
followed by a pipe, which is not a value character), and the three type
alternatives start with distinct characters.  So a deterministic scanner with
maximal runs is an exact translation of
`packetRegexp.FindAllStringSubmatch(s, -1)`. -/

/-- Longest run of characters satisfying p, with the remainder. -/
def takeRun (p : Char → Bool) : List Char → List Char × List Char
  | [] => ([], [])
  | c :: cs =>
    if p c then
      let x := takeRun p cs
      (c :: x.1, x.2)
    else ([], c :: cs)

/-- One raw regexp match: submatches item[1] (name), item[2] (value,
including an optional leading minus), item[3] (type) and item[5]
(sample rate, absent when the optional group did not participate). -/
structure RawM where
  name : List Char
  value : List Char
  ty : List Char
  rate : Option (List Char)
deriving DecidableEq, Repr

/-- The `:` literal of the pattern. -/
def expectColon : List Char → Option (List Char)
  | [] => none
  | c :: r => if c = ':' then some r else none

/-- The `\|` literal of the pattern. -/
def expectPipe : List Char → Option (List Char)
  | [] => none
  | c :: r => if c = '|' then some r else none

/-- The `(\-?[0-9\.]+)` submatch: optional minus, then a maximal nonempty
run of value characters. -/
def valueTok (s : List Char) : Option (List Char × List Char) :=
  match s with
  | [] => none
  | c :: r =>
    if c = '-' then
      match takeRun isValChar r with
      | ([], _) => none
      | (v, r2) => some ('-' :: v, r2)
    else
      match takeRun isValChar (c :: r) with
      | ([], _) => none
      | (v, r2) => some (v, r2)

/-- The `(c|ms|g)` alternation, tried in source order. -/
def typeTok : List Char → Option (List Char × List Char)
  | [] => none
  | c :: r =>
    if c = 'c' then some (['c'], r)
    else if c = 'm' then
      match r with
      | [] => none
      | c2 :: r2 => if c2 = 's' then some (['m', 's'], r2) else none
    else if c = 'g' then some (['g'], r)
    else none

/-- The optional greedy `(\|@([0-9\.]+))?` group: participate when the
input continues with pipe, at-sign and at least one value character,
otherwise match empty. -/
def rateTok (s : List Char) : Option (List Char) × List Char :=
  match s with
  | [] => (none, [])
  | [c] => (none, [c])
  | c :: c2 :: r =>
    if c = '|' then
      if c2 = '@' then
        match takeRun isValChar r with
        | ([], _) => (none, c :: c2 :: r)
        | (d, r2) => (some d, r2)
      else (none, c :: c2 :: r)
    else (none, c :: c2 :: r)

/-- Try to match the pattern at the very start of s; on success return the
submatches and the remainder after the match. -/
def tryMatch (s : List Char) : Option (RawM × List Char) :=
  match takeRun isNameChar s with
  | ([], _) => none
  | (name, r1) =>
    match expectColon r1 with
    | none => none
    | some r2 =>
      match valueTok r2 with
      | none => none
      | some (v, r3) =>
        match expectPipe r3 with
        | none => none
        | some r4 =>
          match typeTok r4 with
          | none => none
          | some (t, r5) =>
            match rateTok r5 with
            | (rt, r6) => some ({ name := name, value := v, ty := t, rate := rt }, r6)

/-- Left-to-right non-overlapping scan: at each position try a match; on
success continue after it, on failure advance one character.  The fuel
argument only bounds the recursion; each step strictly shortens the list, so
fuel equal to the initial length never runs out. -/
def findAllAux : Nat → List Char → List RawM
  | 0, _ => []
  | _ + 1, [] => []
  | fuel + 1, c :: rest =>
    match tryMatch (c :: rest) with
    | some (m, r) => m :: findAllAux fuel r
    | none => findAllAux fuel rest

/-- All matches of packetRegexp in s, in order: the loop of
`FindAllStringSubmatch(s, -1)` (main.go line 254). -/
def findAll (s : List Char) : List RawM := findAllAux s.length s

/-! ## Numeric string parsing (strconv.ParseFloat / strconv.Atoi)

The only strings these functions receive in this program come from the
regexp submatches, so they consist of digits and dots with an optional
leading sign; on that domain `strconv.ParseFloat` succeeds exactly when
there is at least one digit and at most one dot, and `strconv.Atoi`
succeeds exactly when the text after the sign is a nonempty digit run.
Values are modelled exactly over ℚ (ParseFloat would round to binary
floating point; the inputs exercised below round-trip exactly through the
downstream integer conversions). -/

/-- Numeric value of a digit string (most significant first). -/
def natOfDigits (l : List Char) : Nat :=
  l.foldl (fun n c => n * 10 + (c.toNat - '0'.toNat)) 0

/-- A nonempty all-digit string, or failure. -/
def digitsNat (l : List Char) : Option Nat :=
  if l ≠ [] ∧ l.all Char.isDigit then some (natOfDigits l) else none

/-- Unsigned decimal mantissa: digits, optionally a dot and more digits,
with at least one digit in total. -/
def parseMantissa (l : List Char) : Option ℚ :=
  match takeRun Char.isDigit l with
  | (ip, []) => if ip = [] then none else some (natOfDigits ip)
  | (ip, c :: fp) =>
    if c = '.' then
      if (ip ≠ [] ∨ fp ≠ []) ∧ fp.all Char.isDigit then
        some ((natOfDigits ip : ℚ) + (natOfDigits fp : ℚ) / 10 ^ fp.length)
      else none
    else none

/-- `strconv.ParseFloat` on the regexp value domain: optional sign then a
mantissa; `none` models a parse error. -/
def parseFloatQ : List Char → Option ℚ
  | [] => parseMantissa []
  | c :: r =>
    if c = '-' then (parseMantissa r).map (fun q => -q)
    else if c = '+' then parseMantissa r
    else parseMantissa (c :: r)

/-- `strconv.Atoi` with the error ignored, as in `intValue, _ :=
strconv.Atoi(...)` (main.go lines 77-83): optional sign then digits; any
parse failure yields 0. -/
def atoiInt : List Char → Int
  | [] => ((digitsNat []).getD 0 : Nat)
  | c :: r =>
    if c = '+' then ((digitsNat r).getD 0 : Nat)
    else if c = '-' then -(((digitsNat r).getD 0 : Nat) : Int)
    else ((digitsNat (c :: r)).getD 0 : Nat)

/-! ## Decoded packets (handleMessage lines 255-279) -/

/-- The Packet struct (main.go lines 22-27).  Sampling is the float32 field
modelled over ℚ. -/
structure Packet where
  Bucket : String
  Value : String
  Modifier : String
  Sampling : ℚ
deriving DecidableEq, Repr

/-- Packet construction from one match: the ms value fallback to "0" on
parse error (lines 256-261) and the sample-rate default of 1 on an absent
or unparsable group (lines 263-266). -/
def mkPacket (m : RawM) : Packet :=
  { Bucket := String.mk m.name
    Value :=
      if m.ty = ['m', 's'] then
        if (parseFloatQ m.value).isNone then "0" else String.mk m.value
      else String.mk m.value
    Modifier := String.mk m.ty
    Sampling :=
      match m.rate with
      | none => 1
      | some d =>
        match parseFloatQ d with
        | some q => q
        | none => 1 }

/-- handleMessage: sanitize the buffer, scan it, and emit one packet per
match, in order. -/
def decodeBuffer (s : String) : List Packet :=
  (findAll (sanitizeL s.data)).map mkPacket

end StatsdGo

namespace StatsdGo

/-! ## Extended float values

The counter path computes `int(float32(floatValue) * (1 / s.Sampling))`
(main.go line 92) with no guard on the sample rate, so a zero rate produces
a float32 infinity.  `FExt` carries the finite values exactly over ℚ plus
the IEEE non-finite values this expression can produce. -/

inductive FExt where
  | num (q : ℚ)
  | pinf
  | ninf
  | nan
deriving DecidableEq, Repr

/-- Float division `1 / r`: exact for nonzero r, positive infinity at
r = 0 (IEEE 754, as Go float32 division behaves). -/
def recipQF (r : ℚ) : FExt :=
  if r = 0 then FExt.pinf else FExt.num (1 / r)

/-- Float multiplication of a finite value by an extended value. -/
def mulQF (q : ℚ) : FExt → FExt
  | FExt.num r => FExt.num (q * r)
  | FExt.pinf => if q = 0 then FExt.nan else if q < 0 then FExt.ninf else FExt.pinf
  | FExt.ninf => if q = 0 then FExt.nan else if q < 0 then FExt.pinf else FExt.ninf
  | FExt.nan => FExt.nan

/-- Truncation toward zero, the semantics of the Go conversion `int(f)`
for finite in-range floats. -/
def qtrunc (q : ℚ) : Int :=
  if 0 ≤ q then ⌊q⌋ else -⌊-q⌋

/-- Go conversion `int(f)`.  For non-finite values the Go specification
leaves the result undefined; the gc compiler on amd64 produces the minimum
int64, which is recorded here. -/
def intConvF : FExt → Int
  | FExt.num q => qtrunc q
  | FExt.pinf => -(2 ^ 63)
  | FExt.ninf => -(2 ^ 63)
  | FExt.nan => -(2 ^ 63)

/-! ## The aggregate store and the monitor loop sample case
(main.go lines 61-93) -/

/-- The three global maps (main.go lines 44-49), as insertion-ordered
association lists. -/
structure Store where
  counters : List (String × Int)
  timers : List (String × List ℚ)
  gauges : List (String × Int)
deriving DecidableEq, Repr

def emptyStore : Store := { counters := [], timers := [], gauges := [] }

/-- Map update: replace the value at k in place when present, otherwise
append the entry with the default passed through f; this is the
`if !ok { m[b] = d }; m[b] = f(m[b])` idiom of the source. -/
def upsert (l : List (String × α)) (k : String) (f : α → α) (d : α) :
    List (String × α) :=
  match l with
  | [] => [(k, f d)]
  | (k2, v) :: rest =>
    if k2 = k then (k2, f v) :: rest else (k2, v) :: upsert rest k f d

/-- Gauge mutation (lines 72-85): a `+`-prefixed value adds, a
`-`-prefixed value subtracts, anything else replaces; each numeric parse
uses Atoi with the error ignored. -/
def gaugeNew (g : Int) : List Char → Int
  | [] => atoiInt []
  | c :: r =>
    if c = '+' then g + atoiInt r
    else if c = '-' then g - atoiInt r
    else atoiInt (c :: r)

/-- Counter increment for one packet (lines 91-92):
`int(float32(floatValue) * (1 / s.Sampling))`, with a ParseFloat error
leaving floatValue at zero. -/
def counterInc (p : Packet) : Int :=
  intConvF (mulQF ((parseFloatQ p.Value.data).getD 0) (recipQF p.Sampling))

/-- One iteration of the sample case of the monitor select loop
(lines 61-93). -/
def applyPacket (st : Store) (p : Packet) : Store :=
  if p.Modifier = "ms" then
    { st with
      timers :=
        upsert st.timers p.Bucket
          (fun l => l ++ [(parseFloatQ p.Value.data).getD 0]) [] }
  else if p.Modifier = "g" then
    { st with gauges := upsert st.gauges p.Bucket (fun g => gaugeNew g p.Value.data) 0 }
  else
    { st with counters := upsert st.counters p.Bucket (fun c => c + counterInc p) 0 }

def applyPackets (st : Store) (ps : List Packet) : Store :=
  ps.foldl applyPacket st

/-- Decode each datagram in order and apply every resulting packet, the
composition of handleMessage and the monitor loop. -/
def applyBuffers (st : Store) (bufs : List String) : Store :=
  bufs.foldl (fun s b => applyPackets s (decodeBuffer b)) st

/-! ## The flush (submit, main.go lines 170-239) -/

/-- Default flag values of the four name prefixes (main.go lines 37-40). -/
def prefStats : String := "stats."

def prefCounters : String := "stats.counters."

def prefGauges : String := "stats.gauges."

def prefTimers : String := "stats.timers."

/-- The per-counter normalized value (line 174):
`float64(c) / ((float64(flushInterval) * float64(time.Second)) / float64(1e3))`,
where `time.Second` is 10^9 (nanoseconds). -/
def counterNorm (flushInterval : Int) (c : Int) : ℚ :=
  (c : ℚ) / (((flushInterval : ℚ) * 1000000000) / 1000)

/-- The timer statistics of one flush for one bucket list (lines 189-207).
thresholdIndex uses Go integer division, which truncates toward zero.  (For
percentThreshold at least 200 the Go slice t[0:numInThreshold] would go out
of range and panic; the model, used only for thresholds up to 99, takes the
clamped prefix instead.) -/
structure TStats where
  mean : ℚ
  upper : ℚ
  upperAt : ℚ
  lower : ℚ
  count : Nat
deriving DecidableEq, Repr

def timerStats (percentThreshold : Int) (t : List ℚ) : TStats :=
  if t = [] then
    { mean := 0, upper := 0, upperAt := 0, lower := 0, count := 0 }
  else
    let sorted := List.insertionSort (· ≤ ·) t
    let mn := sorted.headD 0
    let mx := sorted.getLastD 0
    let count := t.length
    if 1 < count then
      let thresholdIndex : Int := (Int.tdiv (100 - percentThreshold) 100) * count
      let numInThreshold : Int := count - thresholdIndex
      let values := sorted.take numInThreshold.toNat
      let sum : ℚ := values.foldl (· + ·) 0
      { mean := sum / (numInThreshold : ℚ), upper := mx, upperAt := mx,
        lower := mn, count := count }
    else
      { mean := mn, upper := mx, upperAt := mx, lower := mn, count := count }

/-- The five data points a timer bucket always emits (lines 211-221 for a
nonempty window, lines 222-235 with all values zero for an empty one). -/
def timerPoints (percentThreshold : Int) (u : String) (t : List ℚ) :
    List (String × ℚ) :=
  let s := timerStats percentThreshold t
  [(prefTimers ++ u ++ ".mean", s.mean),
   (prefTimers ++ u ++ ".upper", s.upper),
   (prefTimers ++ u ++ ".upper_" ++ toString percentThreshold, s.upperAt),
   (prefTimers ++ u ++ ".lower", s.lower),
   (prefTimers ++ u ++ ".count", (s.count : ℚ))]

/-- Result of one flush: the graphite lines as (name, value) pairs in
emission order, the store afterwards, and the numStats total. -/
structure FlushOut where
  points : List (String × ℚ)
  store : Store
  numStats : Nat
deriving DecidableEq, Repr

/-- submit (lines 170-239): every counter entry emits a normalized value
and its raw count and is reset to 0; every gauge entry emits its value
unchanged; every timer entry emits five statistics and its observation
list is emptied (the bucket key stays); numStats counts one per entry of
each map; one final synthetic numStats point is appended. -/
def flushGo (flushInterval percentThreshold : Int) (st : Store) : FlushOut :=
  let cPts :=
    (st.counters.map (fun e =>
      [(prefStats ++ e.1, counterNorm flushInterval e.2),
       (prefCounters ++ e.1, (e.2 : ℚ))])).flatten
  let gPts := st.gauges.map (fun e => (prefGauges ++ e.1, (e.2 : ℚ)))
  let tPts :=
    (st.timers.map (fun e => timerPoints percentThreshold e.1 e.2)).flatten
  let ns : Nat :=
    st.timers.foldl (fun n _ => n + 1)
      (st.gauges.foldl (fun n _ => n + 1)
        (st.counters.foldl (fun n _ => n + 1) 0))
  { points := cPts ++ gPts ++ tPts ++ [(prefStats ++ "statsd.numStats", (ns : ℚ))],
    store :=
      { counters := st.counters.map (fun e => (e.1, 0)),
        timers := st.timers.map (fun e => (e.1, ([] : List ℚ))),
        gauges := st.gauges },
    numStats := ns }

end StatsdGo

namespace StatsdGo

/-! ## Helper lemmas -/

theorem lookup_upsert_self (l : List (String × α)) (k : String) (f : α → α) (d : α) :
    List.lookup k (upsert l k f d) = some (f ((List.lookup k l).getD d)) := by
  induction l with
  | nil => simp [upsert, List.lookup]
  | cons e rest ih =>
    obtain ⟨k2, v⟩ := e
    by_cases h : k2 = k
    · subst h
      simp [upsert, List.lookup]
    · have hb : (k == k2) = false := beq_eq_false_iff_ne.mpr (Ne.symm h)
      simp [upsert, h, List.lookup, hb, ih]

theorem lookup_upsert_other (l : List (String × α)) (k k2 : String) (f : α → α)
    (d : α) (h : k2 ≠ k) : List.lookup k2 (upsert l k f d) = List.lookup k2 l := by
  have hb : (k2 == k) = false := beq_eq_false_iff_ne.mpr h
  induction l with
  | nil => simp [upsert, List.lookup, hb]
  | cons e rest ih =>
    obtain ⟨k3, v⟩ := e
    by_cases h3 : k3 = k
    · subst h3
      simp [upsert, List.lookup, hb]
    · simp [upsert, h3, List.lookup, ih]

theorem foldl_count (l : List α) (n : Nat) :
    l.foldl (fun m _ => m + 1) n = n + l.length := by
  induction l generalizing n with
  | nil => simp
  | cons a rest ih => simp [List.foldl, ih]; omega

theorem le_getLastD_of_sorted (l : List ℚ) (h : List.Sorted (· ≤ ·) l) :
    ∀ x ∈ l, ∀ d : ℚ, x ≤ l.getLastD d := by
  induction l with
  | nil => intro x hx; cases hx
  | cons a rest ih =>
    intro x hx d
    rw [List.getLastD_cons]
    rcases List.mem_cons.mp hx with hxa | hxm
    · rw [hxa]
      cases rest with
      | nil => simp
      | cons b rs =>
        have hab : a ≤ b := List.rel_of_sorted_cons h b (by simp)
        exact le_trans hab (ih h.of_cons b (by simp) a)
    · exact ih h.of_cons x hxm a

end StatsdGo

namespace StatsdGo

/-! ## Claim theorems -/

/-- Claim C1 (code bug).  The spec expects the gauge sequence
"temp:5|g", "temp:+3|g", "temp:-1|g" to reach 7, with plus and minus
acting as signed deltas.  The store mutation in monitor (main.go lines
76-81) does implement both signed deltas, as the third conjunct shows on
a raw value list with a leading plus; but the sanitizer strips the plus
character (it is missing from the kept class on line 251), so the decoded
sequence is 5, set-to-3, minus-1 and the pipeline ends at 2, not 7.  The
plus branch of monitor is unreachable from handleMessage.  A bare
"temp:9|g" afterwards does replace the value with 9 as claimed. -/
theorem claim_C1 :
    (applyBuffers emptyStore ["temp:5|g", "temp:+3|g", "temp:-1|g"]).gauges
        = [("temp", 2)] ∧
      (applyBuffers emptyStore
          ["temp:5|g", "temp:+3|g", "temp:-1|g", "temp:9|g"]).gauges
        = [("temp", 9)] ∧
      gaugeNew 5 ['+', '3'] = 8 := by
  refine ⟨by decide, by decide, by decide⟩

/-- Claim C2 (confirmed).  For every percentile threshold P with
1 ≤ P ≤ 99 and every timer list with at least two observations, the
threshold index ((100 - P) / 100) * count computed with Go integer
division is 0, the reported mean is the full-population mean, the
upper-at-threshold equals the reported upper, and the reported upper
bounds every observation; the fixture [5, 1, 9, 3] reports
mean 9/2, upper 9, upper-at-threshold 9, lower 1 and count 4. -/
theorem claim_C2 :
    (∀ (P : Int) (t : List ℚ), 1 ≤ P → P ≤ 99 → 2 ≤ t.length →
        Int.tdiv (100 - P) 100 * (t.length : Int) = 0 ∧
          (timerStats P t).mean = t.sum / (t.length : ℚ) ∧
          (timerStats P t).upperAt = (timerStats P t).upper ∧
          ∀ x ∈ t, x ≤ (timerStats P t).upper) ∧
      timerStats 90 [5, 1, 9, 3]
        = { mean := 9 / 2, upper := 9, upperAt := 9, lower := 1, count := 4 } := by
  constructor
  · intro P t h1 h2 hlen
    have hdiv : Int.tdiv (100 - P) 100 = 0 :=
      Int.tdiv_eq_zero_of_lt (by omega) (by omega)
    have hne : t ≠ [] := by
      intro h
      rw [h] at hlen
      simp at hlen
    have h1lt : 1 < t.length := by omega
    have hperm := List.perm_insertionSort (· ≤ ·) t
    have hlens : (List.insertionSort (· ≤ ·) t).length = t.length :=
      List.length_insertionSort _ t
    refine ⟨by simp [hdiv], ?_, ?_, ?_⟩
    · simp only [timerStats, if_neg hne, if_pos h1lt, hdiv]
      rw [zero_mul, sub_zero, Int.toNat_natCast, ← hlens, List.take_length,
        ← List.sum_eq_foldl, hperm.sum_eq, hlens]
      push_cast
      rfl
    · simp only [timerStats, if_neg hne]
      split_ifs <;> rfl
    · intro x hx
      have hxs : x ∈ List.insertionSort (· ≤ ·) t := hperm.mem_iff.mpr hx
      have hsorted := List.sorted_insertionSort (· ≤ ·) t
      have hle := le_getLastD_of_sorted _ hsorted x hxs 0
      simp only [timerStats, if_neg hne]
      split_ifs <;> exact hle
  · simp [timerStats, List.insertionSort, List.orderedInsert, Int.tdiv]
    norm_num

/-- Claim C2 witness: the hypotheses of the universal part hold at
P = 90 and the fixture list. -/
theorem claim_C2_witness :
    (1 : Int) ≤ 90 ∧ (90 : Int) ≤ 99 ∧ 2 ≤ ([5, 1, 9, 3] : List ℚ).length ∧
      (Int.tdiv (100 - 90) 100 * (([5, 1, 9, 3] : List ℚ).length : Int) = 0 ∧
        (timerStats 90 [5, 1, 9, 3]).mean
            = ([5, 1, 9, 3] : List ℚ).sum / (([5, 1, 9, 3] : List ℚ).length : ℚ) ∧
        (timerStats 90 [5, 1, 9, 3]).upperAt = (timerStats 90 [5, 1, 9, 3]).upper ∧
        ∀ x ∈ ([5, 1, 9, 3] : List ℚ), x ≤ (timerStats 90 [5, 1, 9, 3]).upper) :=
  ⟨by norm_num, by norm_num, by norm_num,
    claim_C2.1 90 [5, 1, 9, 3] (by norm_num) (by norm_num) (by norm_num)⟩

end StatsdGo

namespace StatsdGo

theorem counters_applyPackets (st : Store) (b : String) (ps : List Packet)
    (hall : ∀ p ∈ ps, p.Bucket = b ∧ p.Modifier ≠ "ms" ∧ p.Modifier ≠ "g")
    (v : Int) (hv : List.lookup b st.counters = some v) :
    List.lookup b (applyPackets st ps).counters
      = some (v + (ps.map counterInc).sum) := by
  induction ps generalizing st v with
  | nil => simpa [applyPackets] using hv
  | cons p rest ih =>
    obtain ⟨hb, hms, hg⟩ := hall p (by simp)
    have hstep : (applyPacket st p).counters
        = upsert st.counters p.Bucket (fun c => c + counterInc p) 0 := by
      simp [applyPacket, hms, hg]
    have hlk : List.lookup b (applyPacket st p).counters
        = some (v + counterInc p) := by
      rw [hstep, hb, lookup_upsert_self, hv]
      rfl
    have hall2 : ∀ q ∈ rest, q.Bucket = b ∧ q.Modifier ≠ "ms" ∧ q.Modifier ≠ "g" :=
      fun q hq => hall q (by simp [hq])
    have := ih (applyPacket st p) hall2 (v + counterInc p) hlk
    have hfold : applyPackets st (p :: rest) = applyPackets (applyPacket st p) rest := by
      simp [applyPackets]
    rw [hfold, this, List.map_cons, List.sum_cons, add_assoc]

/-- Claim C3 (corrected).  The counter accumulated for a bucket is not the
exact sum of value/rate quotients: each sample contributes the integer
truncation of value * (1 / rate), computed per sample.  First conjunct:
for a nonzero rate the per-sample increment is that truncation.  Second
conjunct: applying any nonempty run of counter packets for one bucket adds
exactly the sum of the per-sample increments.  Third conjunct: ten decoded
samples of "hits:1|c|@0.1" do yield a raw count of exactly 100, as the
claim states for its example. -/
theorem claim_C3 :
    (∀ p : Packet, p.Sampling ≠ 0 →
        counterInc p
          = qtrunc (((parseFloatQ p.Value.data).getD 0) * (1 / p.Sampling))) ∧
      (∀ (st : Store) (b : String) (ps : List Packet), ps ≠ [] →
          (∀ p ∈ ps, p.Bucket = b ∧ p.Modifier ≠ "ms" ∧ p.Modifier ≠ "g") →
          List.lookup b (applyPackets st ps).counters
            = some (((List.lookup b st.counters).getD 0) + (ps.map counterInc).sum)) ∧
      (applyBuffers emptyStore (List.replicate 10 "hits:1|c|@0.1")).counters
        = [("hits", 100)] := by
  refine ⟨?_, ?_, ?_⟩
  · intro p h
    simp [counterInc, recipQF, mulQF, intConvF, h]
  · intro st b ps hne hall
    match ps with
    | p :: rest =>
      obtain ⟨hb, hms, hg⟩ := hall p (by simp)
      have hstep : (applyPacket st p).counters
          = upsert st.counters p.Bucket (fun c => c + counterInc p) 0 := by
        simp [applyPacket, hms, hg]
      have hlk : List.lookup b (applyPacket st p).counters
          = some ((List.lookup b st.counters).getD 0 + counterInc p) := by
        rw [hstep, hb, lookup_upsert_self]
      have hall2 : ∀ q ∈ rest, q.Bucket = b ∧ q.Modifier ≠ "ms" ∧ q.Modifier ≠ "g" :=
        fun q hq => hall q (by simp [hq])
      have hrest := counters_applyPackets (applyPacket st p) b rest hall2 _ hlk
      have hfold : applyPackets st (p :: rest) = applyPackets (applyPacket st p) rest := by
        simp [applyPackets]
      rw [hfold, hrest, List.map_cons, List.sum_cons, add_assoc]
  · simp [applyBuffers, decodeBuffer, findAll, sanitizeL, findAllAux, tryMatch,
      takeRun, expectColon, valueTok, expectPipe, typeTok, rateTok, mkPacket,
      parseFloatQ, parseMantissa, natOfDigits, applyPackets, applyPacket, upsert,
      counterInc, mulQF, recipQF, intConvF, qtrunc, keepChar, isNameChar, isValChar,
      digitsNat, List.replicate, List.filter, List.foldl, String.data]
    all_goals norm_num

/-- The packet that "hits:1|c|@0.1" decodes to, used by the C3 witness. -/
def pktHits : Packet :=
  { Bucket := "hits", Value := "1", Modifier := "c", Sampling := 1 / 10 }

/-- Claim C3 witness: the hypotheses of the universal parts hold at a
concrete decoded packet of "hits:1|c|@0.1". -/
theorem claim_C3_witness :
    pktHits.Sampling ≠ 0 ∧
      counterInc pktHits
        = qtrunc (((parseFloatQ pktHits.Value.data).getD 0) * (1 / pktHits.Sampling)) ∧
      ([pktHits] : List Packet) ≠ [] ∧
      List.lookup "hits" (applyPackets emptyStore [pktHits]).counters
        = some (((List.lookup "hits" emptyStore.counters).getD 0)
            + (([pktHits] : List Packet).map counterInc).sum) := by
  refine ⟨by norm_num [pktHits], claim_C3.1 _ (by norm_num [pktHits]), by simp, ?_⟩
  exact claim_C3.2.1 emptyStore "hits" _ (by simp) (by simp [pktHits])

/-- Claim C3 counterexample: the single decoded sample "a:1|c|@0.3" has
value 1 and rate 3/10 (a rate inside the documented (0,1] range), so the
claimed accumulated count would be 1 / (3/10) = 10/3; the store actually
holds 3 (the truncation of 1 * (1 / (3/10))), and 10/3 is not 3. -/
theorem claim_C3_cx :
    decodeBuffer "a:1|c|@0.3"
        = [{ Bucket := "a", Value := "1", Modifier := "c", Sampling := 3 / 10 }] ∧
      (applyBuffers emptyStore ["a:1|c|@0.3"]).counters = [("a", 3)] ∧
      (1 : ℚ) / (3 / 10) ≠ 3 := by
  refine ⟨?_, ?_, by norm_num⟩
  · simp [decodeBuffer, findAll, sanitizeL, findAllAux, tryMatch,
      takeRun, expectColon, valueTok, expectPipe, typeTok, rateTok, mkPacket,
      parseFloatQ, parseMantissa, natOfDigits, keepChar, isNameChar, isValChar,
      digitsNat, List.filter, String.data]
    all_goals norm_num
  · simp [applyBuffers, decodeBuffer, findAll, sanitizeL, findAllAux, tryMatch,
      takeRun, expectColon, valueTok, expectPipe, typeTok, rateTok, mkPacket,
      parseFloatQ, parseMantissa, natOfDigits, applyPackets, applyPacket, upsert,
      counterInc, mulQF, recipQF, intConvF, qtrunc, keepChar, isNameChar, isValChar,
      digitsNat, List.filter, List.foldl, String.data]
    all_goals norm_num

/-- Claim C4 (code bug).  The claim and the spec require the per-counter
normalized value to be a per-second rate, rawCount / flushIntervalSeconds,
so raw count 100 over the default 10-second interval should emit 10.  The
source (main.go line 174) divides by
(flushInterval * time.Second) / 1e3 = flushInterval * 10^6, because
time.Second is 10^9 nanoseconds, so it emits 1/100000 instead. -/
theorem claim_C4 :
    counterNorm 10 100 = 1 / 100000 ∧
      ("stats.a", (1 : ℚ) / 100000) ∈
        (flushGo 10 90 { counters := [("a", 100)], timers := [], gauges := [] }).points ∧
      (1 : ℚ) / 100000 ≠ 100 / 10 := by
  refine ⟨by norm_num [counterNorm], ?_, by norm_num⟩
  have h : counterNorm 10 100 = 1 / 100000 := by norm_num [counterNorm]
  simp [flushGo, prefStats, prefCounters, h]

/-- Claim C10 (confirmed).  The sample-rate pattern accepts "0", so
"a:1|c|@0" decodes to a sample with rate 0 rather than being rejected;
the counter update divides by the rate with no guard, 1/0 is the float
positive infinity, and the increment stored is the integer conversion of
that infinity (the Go specification leaves that conversion undefined;
gc on amd64 yields the minimum int64, recorded in intConvF). -/
theorem claim_C10 :
    decodeBuffer "a:1|c|@0"
        = [{ Bucket := "a", Value := "1", Modifier := "c", Sampling := 0 }] ∧
      recipQF 0 = FExt.pinf ∧
      counterInc { Bucket := "a", Value := "1", Modifier := "c", Sampling := 0 }
        = intConvF FExt.pinf ∧
      (applyBuffers emptyStore ["a:1|c|@0"]).counters = [("a", intConvF FExt.pinf)] := by
  refine ⟨?_, by simp [recipQF], ?_, ?_⟩
  · simp [decodeBuffer, findAll, sanitizeL, findAllAux, tryMatch,
      takeRun, expectColon, valueTok, expectPipe, typeTok, rateTok, mkPacket,
      parseFloatQ, parseMantissa, natOfDigits, keepChar, isNameChar, isValChar,
      digitsNat, List.filter, String.data]
  · simp [counterInc, recipQF, mulQF, parseFloatQ, parseMantissa, takeRun,
      natOfDigits, String.data]
    norm_num
  · simp [applyBuffers, decodeBuffer, findAll, sanitizeL, findAllAux, tryMatch,
      takeRun, expectColon, valueTok, expectPipe, typeTok, rateTok, mkPacket,
      parseFloatQ, parseMantissa, natOfDigits, applyPackets, applyPacket, upsert,
      counterInc, mulQF, recipQF, intConvF, qtrunc, keepChar, isNameChar, isValChar,
      digitsNat, List.filter, List.foldl, String.data]
    all_goals norm_num

end StatsdGo

namespace StatsdGo

theorem getLast_append_singleton (l : List α) (a : α) :
    (l ++ [a]).getLast? = some a := by
  simp [List.getLast?_concat]

/-- A store with one entry of every kind, used by witnesses. -/
def stW : Store :=
  { counters := [("a", 5)], timers := [("t", [2]), ("u0", [])], gauges := [("g", 7)] }

/-- The store right after a flush of a store whose only activity was a
single "a:1|c" sample: bucket "a" stays in the counters map at 0 even
though it receives no further samples. -/
def stStale : Store := (flushGo 10 90 (applyBuffers emptyStore ["a:1|c"])).store

/-- Claim C5 (corrected).  The amended statement: at every flush, every
bucket present in the counters map is reported, with both its normalized
point and its raw-count point; since flush keeps every key at count 0,
this includes buckets with no samples since the previous flush (see the
counterexample for the original claim). -/
theorem claim_C5 :
    ∀ (interval P : Int) (st : Store) (k : String) (c : Int),
      (k, c) ∈ st.counters →
        (prefStats ++ k, counterNorm interval c) ∈ (flushGo interval P st).points ∧
          (prefCounters ++ k, (c : ℚ)) ∈ (flushGo interval P st).points := by
  intro interval P st k c hkc
  have hfl : ∀ x ∈ [(prefStats ++ k, counterNorm interval c),
      (prefCounters ++ k, (c : ℚ))],
      x ∈ (st.counters.map (fun e =>
        [(prefStats ++ e.1, counterNorm interval e.2),
         (prefCounters ++ e.1, (e.2 : ℚ))])).flatten := by
    intro x hx
    exact List.mem_flatten.mpr ⟨_, List.mem_map.mpr ⟨(k, c), hkc, rfl⟩, hx⟩
  constructor
  · have := hfl (prefStats ++ k, counterNorm interval c) (by simp)
    simp only [flushGo, List.mem_append]
    tauto
  · have := hfl (prefCounters ++ k, (c : ℚ)) (by simp)
    simp only [flushGo, List.mem_append]
    tauto

/-- Claim C5 witness: the membership hypothesis holds at the concrete
store stW. -/
theorem claim_C5_witness :
    ("a", (5 : Int)) ∈ stW.counters ∧
      (prefStats ++ "a", counterNorm 10 5) ∈ (flushGo 10 90 stW).points ∧
      (prefCounters ++ "a", ((5 : Int) : ℚ)) ∈ (flushGo 10 90 stW).points :=
  ⟨by decide, (claim_C5 10 90 stW "a" 5 (by decide)).1,
    (claim_C5 10 90 stW "a" 5 (by decide)).2⟩

/-- Claim C5 counterexample: after "a:1|c" and one flush, the counters map
holds ("a", 0); the next flush, although bucket "a" received no samples in
its window, still reports the bucket (here the raw-count point at 0),
contradicting the claim that untouched buckets do not appear. -/
theorem claim_C5_cx :
    stStale.counters = [("a", 0)] ∧
      ("stats.counters.a", (0 : ℚ)) ∈ (flushGo 10 90 stStale).points := by
  constructor
  · decide
  · have hpts : (flushGo 10 90 stStale).points =
        [("stats.a", (0 : ℚ)), ("stats.counters.a", 0), ("stats.statsd.numStats", 1)] := by
      have h0 : counterNorm 10 0 = 0 := by norm_num [counterNorm]
      simp [stStale, flushGo, applyBuffers, decodeBuffer, findAll, sanitizeL,
        findAllAux, tryMatch, takeRun, expectColon, valueTok, expectPipe, typeTok,
        rateTok, mkPacket, parseFloatQ, parseMantissa, natOfDigits, applyPackets,
        applyPacket, upsert, counterInc, mulQF, recipQF, intConvF, qtrunc, keepChar,
        isNameChar, isValChar, digitsNat, List.filter, List.foldl, String.data, h0,
        prefStats, prefCounters, emptyStore]
    rw [hpts]
    decide

/-- Claim C6 (confirmed).  After any flush every counter entry is 0 with
its key kept, every timer entry is the empty list with its key kept, and
the gauges are exactly the pre-flush gauges. -/
theorem claim_C6 :
    ∀ (interval P : Int) (st : Store),
      (∀ e ∈ (flushGo interval P st).store.counters, e.2 = 0) ∧
        (flushGo interval P st).store.counters.map Prod.fst
            = st.counters.map Prod.fst ∧
        (∀ e ∈ (flushGo interval P st).store.timers, e.2 = ([] : List ℚ)) ∧
        (flushGo interval P st).store.timers.map Prod.fst
            = st.timers.map Prod.fst ∧
        (flushGo interval P st).store.gauges = st.gauges := by
  intro interval P st
  refine ⟨?_, ?_, ?_, ?_, rfl⟩
  · intro e he
    simp only [flushGo, List.mem_map] at he
    obtain ⟨a, _, rfl⟩ := he
    rfl
  · simp [flushGo, List.map_map, Function.comp]
  · intro e he
    simp only [flushGo, List.mem_map] at he
    obtain ⟨a, _, rfl⟩ := he
    rfl
  · simp [flushGo, List.map_map, Function.comp]

/-- Claim C6 witness: the membership hypotheses hold at the concrete
store stW. -/
theorem claim_C6_witness :
    ("a", (0 : Int)) ∈ (flushGo 10 90 stW).store.counters ∧
      ((("a", (0 : Int)) : String × Int)).2 = 0 ∧
      ("u0", ([] : List ℚ)) ∈ (flushGo 10 90 stW).store.timers ∧
      (flushGo 10 90 stW).store.gauges = stW.gauges :=
  ⟨by decide, (claim_C6 10 90 stW).1 ("a", 0) (by decide), by decide,
    (claim_C6 10 90 stW).2.2.2.2⟩

/-- Claim C7 (corrected).  The amended statement: numStats equals the
number of entries of the counters map plus the gauges map plus the timers
map; because flush keeps counter keys at 0, counter buckets with no
activity in the window are counted too (see the counterexample), while
timer buckets with zero observations are indeed still counted.  The final
point of the flush is the synthetic numStats point carrying that total. -/
theorem claim_C7 :
    ∀ (interval P : Int) (st : Store),
      (flushGo interval P st).numStats
          = st.counters.length + st.gauges.length + st.timers.length ∧
        (flushGo interval P st).points.getLast?
          = some (prefStats ++ "statsd.numStats",
              ((st.counters.length + st.gauges.length + st.timers.length : Nat) : ℚ)) := by
  intro interval P st
  have hns : (flushGo interval P st).numStats
      = st.counters.length + st.gauges.length + st.timers.length := by
    simp only [flushGo]
    rw [foldl_count, foldl_count, foldl_count]
    omega
  refine ⟨hns, ?_⟩
  simp only [flushGo]
  rw [getLast_append_singleton, foldl_count, foldl_count, foldl_count]
  norm_num

/-- Claim C7 counterexample: the store after one "a:1|c" sample and one
flush has one stale counter bucket and nothing else; its next flush has no
bucket with activity, so the claim predicts numStats 0 for it, but the
flush reports numStats 1. -/
theorem claim_C7_cx :
    stStale.counters = [("a", 0)] ∧ stStale.gauges = [] ∧ stStale.timers = [] ∧
      (flushGo 10 90 stStale).numStats = 1 ∧ (1 : Nat) ≠ 0 := by
  refine ⟨by decide, by decide, by decide, by decide, by decide⟩

/-- Claim C8 (confirmed).  Every timer bucket present with an empty
observation list still emits all five fields, each with value zero. -/
theorem claim_C8 :
    ∀ (interval P : Int) (st : Store) (u : String),
      (u, ([] : List ℚ)) ∈ st.timers →
        (prefTimers ++ u ++ ".mean", (0 : ℚ)) ∈ (flushGo interval P st).points ∧
          (prefTimers ++ u ++ ".upper", (0 : ℚ)) ∈ (flushGo interval P st).points ∧
          (prefTimers ++ u ++ ".upper_" ++ toString P, (0 : ℚ))
              ∈ (flushGo interval P st).points ∧
          (prefTimers ++ u ++ ".lower", (0 : ℚ)) ∈ (flushGo interval P st).points ∧
          (prefTimers ++ u ++ ".count", (0 : ℚ)) ∈ (flushGo interval P st).points := by
  intro interval P st u hu
  have hmem : ∀ x ∈ timerPoints P u ([] : List ℚ), x ∈ (flushGo interval P st).points := by
    intro x hx
    have hfl : x ∈ (st.timers.map (fun e => timerPoints P e.1 e.2)).flatten :=
      List.mem_flatten.mpr ⟨timerPoints P u [], List.mem_map.mpr ⟨(u, []), hu, rfl⟩, hx⟩
    simp only [flushGo, List.mem_append]
    tauto
  refine ⟨?_, ?_, ?_, ?_, ?_⟩ <;>
    · apply hmem
      simp [timerPoints, timerStats]

/-- Claim C8 witness: the membership hypothesis holds at the concrete
store stW, whose timer bucket "u0" has no observations. -/
theorem claim_C8_witness :
    ("u0", ([] : List ℚ)) ∈ stW.timers ∧
      (prefTimers ++ "u0" ++ ".mean", (0 : ℚ)) ∈ (flushGo 10 90 stW).points :=
  ⟨by decide, (claim_C8 10 90 stW "u0" (by decide)).1⟩

end StatsdGo

namespace StatsdGo

/-! ## C9: the scanner against the declarative pattern

`Inst m` says that the string m is an instance of packetRegexp, written
out structurally: a nonempty name run, a colon, an optional minus, a
nonempty value run, a pipe, one of the three type tokens, and an optional
sample-rate group. -/

def Inst (m : List Char) : Prop :=
  ∃ n sgn v t r,
    (n ≠ [] ∧ ∀ c ∈ n, isNameChar c = true) ∧
    (sgn = [] ∨ sgn = ['-']) ∧
    (v ≠ [] ∧ ∀ c ∈ v, isValChar c = true) ∧
    (t = ['c'] ∨ t = ['m', 's'] ∨ t = ['g']) ∧
    (r = [] ∨ ∃ d, d ≠ [] ∧ (∀ c ∈ d, isValChar c = true) ∧ r = '|' :: '@' :: d) ∧
    m = n ++ ':' :: (sgn ++ v ++ '|' :: (t ++ r))

theorem inst_ne_nil {m : List Char} (h : Inst m) : m ≠ [] := by
  obtain ⟨n, sgn, v, t, r, ⟨hn, _⟩, _, _, _, _, rfl⟩ := h
  cases n with
  | nil => exact absurd rfl hn
  | cons c n2 => simp

theorem takeRun_append (p : Char → Bool) (l : List Char) (x : Char) (r : List Char)
    (hl : ∀ c ∈ l, p c = true) (hx : p x = false) :
    takeRun p (l ++ x :: r) = (l, x :: r) := by
  induction l with
  | nil => simp [takeRun, hx]
  | cons c cs ih =>
    have hc : p c = true := hl c (by simp)
    have ih2 := ih (fun c2 hc2 => hl c2 (by simp [hc2]))
    simp [takeRun, hc, ih2]

theorem takeRun_eq (p : Char → Bool) (s : List Char) :
    (takeRun p s).1 ++ (takeRun p s).2 = s := by
  induction s with
  | nil => rfl
  | cons c cs ih =>
    by_cases hc : p c = true
    · simp [takeRun, hc, ih]
    · simp [takeRun, Bool.of_not_eq_true hc]

theorem takeRun_all (p : Char → Bool) (s : List Char) :
    ∀ c ∈ (takeRun p s).1, p c = true := by
  induction s with
  | nil => intro c hc; cases hc
  | cons c cs ih =>
    by_cases hc : p c = true
    · intro c2 hc2
      rw [takeRun] at hc2
      simp only [hc, if_true] at hc2
      rcases List.mem_cons.mp hc2 with rfl | h2
      · exact hc
      · exact ih c2 h2
    · intro c2 hc2
      rw [takeRun] at hc2
      simp [Bool.of_not_eq_true hc] at hc2

theorem expectColon_sound {s r : List Char} (h : expectColon s = some r) :
    s = ':' :: r := by
  cases s with
  | nil => simp [expectColon] at h
  | cons c s2 =>
    by_cases hc : c = ':'
    · subst hc
      simp [expectColon] at h
      simp [h]
    · simp [expectColon, hc] at h

theorem expectPipe_sound {s r : List Char} (h : expectPipe s = some r) :
    s = '|' :: r := by
  cases s with
  | nil => simp [expectPipe] at h
  | cons c s2 =>
    by_cases hc : c = '|'
    · subst hc
      simp [expectPipe] at h
      simp [h]
    · simp [expectPipe, hc] at h

theorem valueTok_sound {s v r2 : List Char} (h : valueTok s = some (v, r2)) :
    ∃ sgn core, (sgn = [] ∨ sgn = ['-']) ∧ core ≠ [] ∧
      (∀ c ∈ core, isValChar c = true) ∧ v = sgn ++ core ∧ s = v ++ r2 := by
  cases s with
  | nil => simp [valueTok] at h
  | cons c s2 =>
    by_cases hc : c = '-'
    · subst hc
      rcases htr : takeRun isValChar s2 with ⟨v1, rr⟩
      cases v1 with
      | nil => simp [valueTok, htr] at h
      | cons d ds =>
        simp [valueTok, htr] at h
        obtain ⟨rfl, rfl⟩ := h
        refine ⟨['-'], d :: ds, Or.inr rfl, by simp, ?_, rfl, ?_⟩
        · have := takeRun_all isValChar s2
          rw [htr] at this
          exact this
        · have := takeRun_eq isValChar s2
          rw [htr] at this
          simp at this
          simp [this]
    · rcases htr : takeRun isValChar (c :: s2) with ⟨v1, rr⟩
      cases v1 with
      | nil => simp [valueTok, hc, htr] at h
      | cons d ds =>
        simp [valueTok, hc, htr] at h
        obtain ⟨rfl, rfl⟩ := h
        refine ⟨[], d :: ds, Or.inl rfl, by simp, ?_, by simp, ?_⟩
        · have := takeRun_all isValChar (c :: s2)
          rw [htr] at this
          exact this
        · have := takeRun_eq isValChar (c :: s2)
          rw [htr] at this
          simp [this]

theorem typeTok_sound {s t r : List Char} (h : typeTok s = some (t, r)) :
    (t = ['c'] ∨ t = ['m', 's'] ∨ t = ['g']) ∧ s = t ++ r := by
  cases s with
  | nil => simp [typeTok] at h
  | cons c s2 =>
    by_cases hc : c = 'c'
    · subst hc
      simp [typeTok] at h
      obtain ⟨rfl, rfl⟩ := h
      exact ⟨Or.inl rfl, by simp⟩
    · by_cases hm : c = 'm'
      · subst hm
        cases s2 with
        | nil => simp [typeTok, hc] at h
        | cons c2 s3 =>
          by_cases hs : c2 = 's'
          · subst hs
            simp [typeTok, hc] at h
            obtain ⟨rfl, rfl⟩ := h
            exact ⟨Or.inr (Or.inl rfl), by simp⟩
          · simp [typeTok, hc, hs] at h
      · by_cases hg : c = 'g'
        · subst hg
          simp [typeTok, hc, hm] at h
          obtain ⟨rfl, rfl⟩ := h
          exact ⟨Or.inr (Or.inr rfl), by simp⟩
        · simp [typeTok, hc, hm, hg] at h

theorem rateTok_sound (s : List Char) :
    ∃ rp, (rp = [] ∨ ∃ d, d ≠ [] ∧ (∀ c ∈ d, isValChar c = true) ∧
        rp = '|' :: '@' :: d) ∧ s = rp ++ (rateTok s).2 := by
  match s with
  | [] => exact ⟨[], Or.inl rfl, rfl⟩
  | [c] => exact ⟨[], Or.inl rfl, rfl⟩
  | c :: c2 :: r =>
    by_cases hc : c = '|'
    · subst hc
      by_cases h2 : c2 = '@'
      · subst h2
        rcases htr : takeRun isValChar r with ⟨d, rr⟩
        cases d with
        | nil =>
          refine ⟨[], Or.inl rfl, ?_⟩
          simp [rateTok, htr]
        | cons e es =>
          refine ⟨'|' :: '@' :: e :: es, Or.inr ⟨e :: es, by simp, ?_, rfl⟩, ?_⟩
          · have := takeRun_all isValChar r
            rw [htr] at this
            exact this
          · have := takeRun_eq isValChar r
            rw [htr] at this
            simp only [rateTok, htr]
            simp [this]
      · refine ⟨[], Or.inl rfl, ?_⟩
        simp [rateTok, h2]
    · refine ⟨[], Or.inl rfl, ?_⟩
      simp [rateTok, hc]

end StatsdGo

namespace StatsdGo

theorem tryMatch_sound {s : List Char} {m : RawM} {rest : List Char}
    (h : tryMatch s = some (m, rest)) :
    ∃ mid, Inst mid ∧ mid ≠ [] ∧ s = mid ++ rest := by
  rcases htr : takeRun isNameChar s with ⟨name, r1⟩
  have hs1 : name ++ r1 = s := by
    have := takeRun_eq isNameChar s
    rw [htr] at this
    exact this
  have hall1 : ∀ c ∈ name, isNameChar c = true := by
    have := takeRun_all isNameChar s
    rw [htr] at this
    exact this
  unfold tryMatch at h
  rw [htr] at h
  cases name with
  | nil => simp at h
  | cons c0 n2 =>
    dsimp only at h
    rcases hec : expectColon r1 with _ | r2
    · rw [hec] at h; simp at h
    · rw [hec] at h
      dsimp only at h
      rcases hvt : valueTok r2 with _ | vr3
      · rw [hvt] at h; simp at h
      · obtain ⟨v, r3⟩ := vr3
        rw [hvt] at h
        dsimp only at h
        rcases hep : expectPipe r3 with _ | r4
        · rw [hep] at h; simp at h
        · rw [hep] at h
          dsimp only at h
          rcases htt : typeTok r4 with _ | tr5
          · rw [htt] at h; simp at h
          · obtain ⟨t, r5⟩ := tr5
            rw [htt] at h
            dsimp only at h
            rcases hra : rateTok r5 with ⟨rt, r6⟩
            rw [hra] at h
            dsimp only at h
            simp only [Option.some.injEq, Prod.mk.injEq] at h
            obtain ⟨-, hrest⟩ := h
            obtain ⟨sgn, core, hsgn, hcore_ne, hcore_all, hv_eq, hr2⟩ :=
              valueTok_sound hvt
            obtain ⟨ht, hr4⟩ := typeTok_sound htt
            obtain ⟨rp, hrp, hr5⟩ := rateTok_sound r5
            rw [hra] at hr5
            refine ⟨(c0 :: n2) ++ ':' :: (sgn ++ core ++ '|' :: (t ++ rp)),
              ⟨c0 :: n2, sgn, core, t, rp, ⟨by simp, hall1⟩, hsgn,
                ⟨hcore_ne, hcore_all⟩, ht, hrp, rfl⟩, by simp, ?_⟩
            rw [← hs1, expectColon_sound hec, hr2, expectPipe_sound hep, hr4, hr5,
              ← hrest, hv_eq]
            simp [List.append_assoc]

theorem tryMatch_of_inst {mid : List Char} (h : Inst mid) (post : List Char) :
    ∃ out, tryMatch (mid ++ post) = some out := by
  obtain ⟨n, sgn, v, t, r, ⟨hn_ne, hn_all⟩, hsgn, ⟨hv_ne, hv_all⟩, ht, hr, rfl⟩ := h
  obtain ⟨c0, n2, rfl⟩ := List.exists_cons_of_ne_nil hn_ne
  obtain ⟨c1, v2, rfl⟩ := List.exists_cons_of_ne_nil hv_ne
  have hx : ((c0 :: n2) ++ ':' :: (sgn ++ (c1 :: v2) ++ '|' :: (t ++ r))) ++ post
      = (c0 :: n2) ++ ':' :: ((sgn ++ (c1 :: v2) ++ '|' :: (t ++ r)) ++ post) := by
    simp [List.append_assoc]
  rw [hx]
  have h1 : takeRun isNameChar
      ((c0 :: n2) ++ ':' :: ((sgn ++ (c1 :: v2) ++ '|' :: (t ++ r)) ++ post))
      = (c0 :: n2, ':' :: ((sgn ++ (c1 :: v2) ++ '|' :: (t ++ r)) ++ post)) :=
    takeRun_append _ _ _ _ hn_all (by decide)
  unfold tryMatch
  rw [h1]
  dsimp only
  have hec : expectColon (':' :: ((sgn ++ (c1 :: v2) ++ '|' :: (t ++ r)) ++ post))
      = some ((sgn ++ (c1 :: v2) ++ '|' :: (t ++ r)) ++ post) := by
    simp [expectColon]
  rw [hec]
  dsimp only
  have hY : (sgn ++ (c1 :: v2) ++ '|' :: (t ++ r)) ++ post
      = sgn ++ ((c1 :: v2) ++ '|' :: ((t ++ r) ++ post)) := by
    simp [List.append_assoc]
  have htr2 : takeRun isValChar ((c1 :: v2) ++ '|' :: ((t ++ r) ++ post))
      = (c1 :: v2, '|' :: ((t ++ r) ++ post)) :=
    takeRun_append _ _ _ _ hv_all (by decide)
  simp only [List.cons_append, List.append_assoc] at htr2
  have hvt : valueTok ((sgn ++ (c1 :: v2) ++ '|' :: (t ++ r)) ++ post)
      = some (sgn ++ (c1 :: v2), '|' :: ((t ++ r) ++ post)) := by
    rcases hsgn with rfl | rfl
    · simp only [List.nil_append] at hY ⊢
      rw [hY]
      have hc1 : ¬c1 = '-' := by
        intro hc
        have := hv_all c1 (by simp)
        rw [hc] at this
        simp [isValChar] at this
      simp [valueTok, hc1, htr2, List.cons_append, List.append_assoc]
    · rw [hY]
      simp [valueTok, htr2, List.cons_append, List.append_assoc]
  rw [hvt]
  dsimp only
  have hep : expectPipe ('|' :: ((t ++ r) ++ post)) = some ((t ++ r) ++ post) := by
    simp [expectPipe]
  rw [hep]
  dsimp only
  have hZ : (t ++ r) ++ post = t ++ (r ++ post) := by simp
  have htt : ∃ r5, typeTok ((t ++ r) ++ post) = some (t, r5) := by
    rw [hZ]
    rcases ht with rfl | rfl | rfl
    · exact ⟨r ++ post, by simp [typeTok]⟩
    · exact ⟨r ++ post, by simp [typeTok]⟩
    · exact ⟨r ++ post, by simp [typeTok]⟩
  obtain ⟨r5, htt⟩ := htt
  rw [htt]
  dsimp only
  exact ⟨_, rfl⟩

theorem tryMatch_rest_length {s : List Char} {m : RawM} {rest : List Char}
    (h : tryMatch s = some (m, rest)) : rest.length < s.length := by
  obtain ⟨mid, _, hne, rfl⟩ := tryMatch_sound h
  simp only [List.length_append]
  have : 0 < mid.length := List.length_pos.mpr hne
  omega

end StatsdGo

namespace StatsdGo

theorem findAllAux_ne_nil_iff :
    ∀ (fuel : Nat) (s : List Char), s.length ≤ fuel →
      (findAllAux fuel s ≠ [] ↔ ∃ pre mid post, Inst mid ∧ s = pre ++ mid ++ post) := by
  intro fuel
  induction fuel with
  | zero =>
    intro s hs
    have hnil : s = [] := List.length_eq_zero.mp (Nat.le_zero.mp hs)
    subst hnil
    constructor
    · intro h
      simp [findAllAux] at h
    · rintro ⟨pre, mid, post, hInst, heq⟩
      have hlen0 : mid.length = 0 := by
        have h0 := congrArg List.length heq
        simp [List.length_append] at h0
        omega
      exact absurd (List.length_eq_zero.mp hlen0) (inst_ne_nil hInst)
  | succ fuel ih =>
    intro s hs
    cases s with
    | nil =>
      constructor
      · intro h
        simp [findAllAux] at h
      · rintro ⟨pre, mid, post, hInst, heq⟩
        have hlen0 : mid.length = 0 := by
          have h0 := congrArg List.length heq
          simp [List.length_append] at h0
          omega
        exact absurd (List.length_eq_zero.mp hlen0) (inst_ne_nil hInst)
    | cons c rest =>
      rcases htm : tryMatch (c :: rest) with _ | out
      · have hlen : rest.length ≤ fuel := by
          simp at hs
          omega
        have hrec := ih rest hlen
        have hstep : findAllAux (fuel + 1) (c :: rest) = findAllAux fuel rest := by
          simp [findAllAux, htm]
        rw [hstep, hrec]
        constructor
        · rintro ⟨pre, mid, post, hInst, heq⟩
          exact ⟨c :: pre, mid, post, hInst, by simp [heq]⟩
        · rintro ⟨pre, mid, post, hInst, heq⟩
          cases pre with
          | nil =>
            exfalso
            obtain ⟨o, ho⟩ := tryMatch_of_inst hInst post
            rw [List.nil_append] at heq
            rw [← heq, htm] at ho
            simp at ho
          | cons c2 pre2 =>
            simp only [List.cons_append, List.cons.injEq] at heq
            exact ⟨pre2, mid, post, hInst, heq.2⟩
      · obtain ⟨m, r⟩ := out
        constructor
        · intro _
          obtain ⟨mid, hInst, hne, heq⟩ := tryMatch_sound htm
          exact ⟨[], mid, r, hInst, by simpa using heq⟩
        · intro _
          simp [findAllAux, htm]

end StatsdGo

namespace StatsdGo

/-- Claim C9 (confirmed).  Decoding never fails: it emits exactly one
packet per scanner match of the sanitized buffer (second conjunct), and
it emits at least one packet exactly when some substring of the sanitized
buffer is an instance of the packet pattern (first conjunct) -- so a
malformed fragment yields nothing by itself and cannot suppress a valid
match elsewhere in the buffer.  Concretely, a buffer with two valid
encodings, junk between them and a trailing junk fragment decodes to
exactly the two samples, and an all-junk buffer decodes to none. -/
theorem claim_C9 :
    (∀ s : String, decodeBuffer s ≠ []
        ↔ ∃ pre mid post, Inst mid ∧ sanitizeL s.data = pre ++ mid ++ post) ∧
      (∀ s : String, (decodeBuffer s).length = (findAll (sanitizeL s.data)).length) ∧
      decodeBuffer "a:1|c xx| b:2|c 12"
        = [{ Bucket := "a", Value := "1", Modifier := "c", Sampling := 1 },
           { Bucket := "b", Value := "2", Modifier := "c", Sampling := 1 }] ∧
      decodeBuffer "xx| 12" = [] := by
  refine ⟨?_, ?_, by decide, by decide⟩
  · intro s
    constructor
    · intro h
      have hfa : findAll (sanitizeL s.data) ≠ [] := by
        intro h2
        rw [decodeBuffer, h2] at h
        simp at h
      exact (findAllAux_ne_nil_iff _ _ le_rfl).mp hfa
    · intro h
      have hfa := (findAllAux_ne_nil_iff (sanitizeL s.data).length _ le_rfl).mpr h
      rw [decodeBuffer]
      simpa [List.map_eq_nil_iff] using hfa
  · intro s
    simp [decodeBuffer]

end StatsdGo
